import Mathlib

/-!
Verification of the windowed extraction pipeline of `smart-cache`
(`src/DataManager/collector/dataset/generator.py` and
`src/DataManager/agent/api.py`).

The development shallowly embeds the Python source.  Python `datetime.date`
values are modelled as (year, month, day) triples over the proleptic
Gregorian calendar with the representable range of Python
`date(1,1,1) .. date(9999,12,31)`; adding a `timedelta` past either end
raises `OverflowError`, which the model reflects with `Option`/error flags.
Machine integers are `Nat`/`Int` (Python integers are unbounded, so no
modular arithmetic is needed).  Generators are modelled by the finite list
of values they yield together with a flag saying whether iteration ended in
an exception instead of normal exhaustion.
-/

set_option maxHeartbeats 1000000

namespace SmartCache

/-- A calendar date triple, modelling Python `datetime.date` components. -/
structure Date where
  year : Nat
  month : Nat
  day : Nat
deriving DecidableEq, Repr

/-- Gregorian leap-year rule, as in Python `calendar.isleap`. -/
def isLeap (y : Nat) : Bool :=
  y % 4 == 0 && (y % 100 != 0 || y % 400 == 0)

/-- Number of days of month `m` in year `y` (months are 1-based). -/
def daysInMonth (y m : Nat) : Nat :=
  if m = 2 then (if isLeap y then 29 else 28)
  else if m = 4 ∨ m = 6 ∨ m = 9 ∨ m = 11 then 30
  else 31

/-- Days in year `y` strictly before month `m` (cumulative month lengths). -/
def daysBeforeMonth (y m : Nat) : Nat :=
  (match m with
   | 1 => 0 | 2 => 31 | 3 => 59 | 4 => 90 | 5 => 120 | 6 => 151
   | 7 => 181 | 8 => 212 | 9 => 243 | 10 => 273 | 11 => 304 | _ => 334)
  + (if 3 ≤ m ∧ isLeap y then 1 else 0)

/-- Days before January 1st of year `y`, so that `toOrdinal ⟨1,1,1⟩ = 1`,
matching Python `date.toordinal`. -/
def daysBeforeYear (y : Nat) : Nat :=
  365 * (y - 1) + (y - 1) / 4 + (y - 1) / 400 - (y - 1) / 100

/-- Proleptic-Gregorian ordinal of a date, as Python `date.toordinal`. -/
def toOrdinal (t : Date) : Nat :=
  daysBeforeYear t.year + daysBeforeMonth t.year t.month + t.day

/-- Ordinal of Python `date.max = date(9999, 12, 31)`. -/
def MAXORD : Nat := 3652059

/-- Python `date.max`. -/
def maxDate : Date := ⟨9999, 12, 31⟩

/-- Python `date.min`. -/
def minDate : Date := ⟨1, 1, 1⟩

/-- A triple is a date the Python `date(year, month, day)` constructor accepts:
`MINYEAR ≤ year ≤ MAXYEAR` and month/day within calendar range. -/
def Valid (t : Date) : Prop :=
  1 ≤ t.year ∧ t.year ≤ 9999 ∧ 1 ≤ t.month ∧ t.month ≤ 12 ∧
    1 ≤ t.day ∧ t.day ≤ daysInMonth t.year t.month

instance (t : Date) : Decidable (Valid t) := by
  unfold Valid; infer_instance

/-- Successor day in the Gregorian calendar (wraps months and years). -/
def nextDay (t : Date) : Date :=
  if t.day < daysInMonth t.year t.month then ⟨t.year, t.month, t.day + 1⟩
  else if t.month < 12 then ⟨t.year, t.month + 1, 1⟩
  else ⟨t.year + 1, 1, 1⟩

/-- Predecessor day in the Gregorian calendar (wraps months and years). -/
def prevDay (t : Date) : Date :=
  if 1 < t.day then ⟨t.year, t.month, t.day - 1⟩
  else if 1 < t.month then ⟨t.year, t.month - 1, daysInMonth t.year (t.month - 1)⟩
  else ⟨t.year - 1, 12, 31⟩

/-- Step `n` days forward; `none` models the Python `OverflowError` when the
result would pass `date.max`. -/
def upIter : Date → Nat → Option Date
  | t, 0 => some t
  | t, n + 1 => if t = maxDate then none else upIter (nextDay t) n

/-- Step `n` days backward; `none` models `OverflowError` below `date.min`. -/
def downIter : Date → Nat → Option Date
  | t, 0 => some t
  | t, n + 1 => if t = minDate then none else downIter (prevDay t) n

/-- Python `date + timedelta(days = k)` with overflow checking. -/
def addDaysB (t : Date) (k : Int) : Option Date :=
  if 0 ≤ k then upIter t k.toNat else downIter t (-k).toNat

/-- One step of the `while start_date != end_date` loop of
`CMSDatasetV0.__gen_interval` (generator.py lines 178-180), run with `fuel`
remaining iterations.  Returns the yielded dates plus a flag that is `true`
when the loop ended by raising `OverflowError` (adding the step passed
`date.max`) rather than by reaching `end_date`.  `none` means the fuel ran
out, which never happens for the fuel used by `genInterval`. -/
def genLoopF : Nat → Date → Date → Int → Option (List Date × Bool)
  | 0, _, _, _ => none
  | fuel + 1, s, e, st =>
    if s = e then some ([], false)
    else
      match addDaysB s st with
      | none => some ([s], true)
      | some s' =>
        match genLoopF fuel s' e st with
        | none => none
        | some (l, b) => some (s :: l, b)

/-- Fuel that strictly exceeds the largest possible number of loop
iterations for any positive step (`MAXORD + 1`). -/
def FUEL : Nat := 3652060

/-- Embedding of `CMSDatasetV0.__gen_interval(year, month, day, window_size,
step, next_week)` (generator.py lines 154-180).  The result is the list of
triples the generator yields, with a `true` flag when iteration ends in an
exception (`ValueError` from an invalid start date, or `OverflowError` from
date arithmetic passing the representable range) instead of normal
completion. -/
def genInterval (y m d : Nat) (ws st : Int) (nextWeek : Bool) :
    Option (List Date × Bool) :=
  if Valid ⟨y, m, d⟩ then
    let s0 : Date := ⟨y, m, d⟩
    match (if nextWeek then addDaysB s0 ws else some s0) with
    | none => some ([], true)
    | some s =>
      match addDaysB s ws with
      | none => some ([], true)
      | some e => genLoopF FUEL s e st
  else some ([], true)

/-- Exceptions the embedded Python code can raise, plus `blocked` for a
`Queue.get()` call that waits forever on a queue nothing will ever fill. -/
inductive PyErr where
  | nameError
  | typeError
  | blocked
  | noMethods
  | attributeError
  | httpError
  | overflowError
deriving DecidableEq, Repr

/-- Modelled from the spec: validated domain record as seen by the merge
loop (class CMSDataPopularity of
DataManager/collector/datafeatures/extractor.py, which is not under src/).
Spec section 3: a RawRecord carries an identity key (file name), a feature
set and a validity flag; the recurrence flag of a freshly constructed
record is unset. -/
structure Payload where
  valid : Bool
  fileName : Nat
  features : List (Nat × Nat)
deriving DecidableEq, Repr

/-- Modelled from the spec: accumulated window record (class CMSSimpleRecord
of DataManager/collector/datafeatures/extractor.py, not under src/).  Spec
section 3: identity key, merged numeric feature values, a boolean "recurs
in next window" flag. -/
structure SimpleRecord where
  recordId : Nat
  inNext : Bool
  totRequests : Nat
  features : List (Nat × Nat)
deriving DecidableEq, Repr

/-- Modelled from the spec: the `record += other` merge of two
CMSSimpleRecord values sharing an identity key (spec section 4.5: summation
for counters, most-recent-wins for categorical fields; the flag of the
accumulator stays set once set). -/
def mergeRec (a b : SimpleRecord) : SimpleRecord :=
  ⟨a.recordId, a.inNext || b.inNext, a.totRequests + b.totRequests, b.features⟩

/-- Insertion (or in-place merge) into the `res_data` OrderedDict of
`extract`, keyed by `record_id`, preserving first-seen order
(generator.py lines 391-394). -/
def odInsert (k : Nat) (v : SimpleRecord) :
    List (Nat × SimpleRecord) → List (Nat × SimpleRecord)
  | [] => [(k, v)]
  | (k', v') :: rest =>
    if k = k' then (k', mergeRec v' v) :: rest else (k', v') :: odInsert k v rest

/-- Modelled from the spec: `SupportTable.insert` into the features domain
(DataManager/collector/dataset/utils.py is not under src/).  Spec section
4.6: registers the value under the domain if unseen; idempotent. -/
def stInsert (t : List (Nat × Nat)) (p : Nat × Nat) : List (Nat × Nat) :=
  if p ∈ t then t else t ++ [p]

/-- Inserting every (feature, value) pair of a record, as the inner loop of
generator.py lines 396-398 does. -/
def insertFeatures (t : List (Nat × Nat)) (fs : List (Nat × Nat)) :
    List (Nat × Nat) :=
  fs.foldl stInsert t

/-- Ordering used to assign sorted ordinal codes (lexicographic on the
(feature, value) pair). -/
def pairLE (a b : Nat × Nat) : Bool :=
  a.1 < b.1 || (a.1 == b.1 && a.2 ≤ b.2)

/-- Insert into a sorted list (helper for the sorted code assignment). -/
def sortedInsert (x : Nat × Nat) : List (Nat × Nat) → List (Nat × Nat)
  | [] => [x]
  | y :: ys => if pairLE x y then x :: y :: ys else y :: sortedInsert x ys

/-- Insertion sort by `pairLE`. -/
def sortPairs : List (Nat × Nat) → List (Nat × Nat)
  | [] => []
  | x :: xs => sortedInsert x (sortPairs xs)

/-- Modelled from the spec: `SupportTable.reduce_categories` (utils.py not
under src/).  Spec section 4.6: partitions the values of the domain with a
caller-supplied equivalence and keeps one canonical representative per
group. -/
def stReduce (canon : Nat → Nat) (t : List (Nat × Nat)) : List (Nat × Nat) :=
  (t.map (fun p => (p.1, canon p.2))).dedup

/-- Modelled from the spec: `SupportTable.gen_indexes` (utils.py not under
src/).  Spec section 4.6: assigns each surviving category a dense ordinal
code in sorted order. -/
def stGenIndexes (t : List (Nat × Nat)) : List ((Nat × Nat) × Nat) :=
  (sortPairs t).enum.map (fun p => (p.2, p.1))

/-- The canonical-representative map used for the process-name feature
reduction; its exact behaviour lives outside src/, so it stays abstract
here and is instantiated with the identity in concrete computations. -/
def splitProcess : Nat → Nat := id

/-- The "Create output data" loop of `CMSDatasetV0.extract` (generator.py
lines 385-398): for each record, rebuild the popularity view, skip it when
invalid, set its "recurs in next window" flag when its file name is a
next-window key, then insert-or-merge it into `res_data` keyed by
`record_id`; when support tables are enabled, insert every feature pair of
the new record. -/
def outLoop (es : Bool) (nextIdx : List Nat) :
    List Payload → List (Nat × SimpleRecord) → List (Nat × Nat) →
    List (Nat × SimpleRecord) × List (Nat × Nat)
  | [], acc, st => (acc, st)
  | r :: rs, acc, st =>
    if r.valid then
      let newRec : SimpleRecord :=
        ⟨r.fileName, nextIdx.contains r.fileName, 1, r.features⟩
      outLoop es nextIdx rs (odInsert r.fileName newRec acc)
        (if es then insertFeatures st r.features else st)
    else outLoop es nextIdx rs acc st

/-- Output-data construction of `extract` starting from the empty
OrderedDict and the empty support table (generator.py lines 266-272 and
385-398). -/
def createOutputData (es : Bool) (data : List Payload) (nextIdx : List Nat) :
    List (Nat × SimpleRecord) × List (Nat × Nat) :=
  outLoop es nextIdx data [] []

/-- The current-window key set: `extract` unions, per day, exactly the
identity keys of the records that were placed into `data`, so the key set
equals the keys of the records of `data`. -/
def windowKeys (data : List Payload) : List Nat :=
  data.map (fun r => r.fileName)

/-- Tail of `extract` (generator.py lines 402-414): when support tables are
enabled, reduce the features domain and generate the sorted indexes and
return the table; otherwise return an empty dict (modelled as `none`). -/
def extractOutput (es : Bool) (data : List Payload) (nextIdx : List Nat) :
    List (Nat × SimpleRecord) × Option (List ((Nat × Nat) × Nat)) :=
  let (res, st) := createOutputData es data nextIdx
  if es then (res, some (stGenIndexes (stReduce splitProcess st))) else (res, none)

/-- Embedding of `CMSDatasetV0.get_raw_data` (generator.py lines 182-218).
Its first executed expression,
`yaspin(text="Starting raw data extraction of {}".format(full_path))`
(line 191), reads the name `full_path`, which is bound nowhere in the
function or module, so every call raises `NameError` before any data is
retrieved; the extraction loop below that line is unreachable. -/
def getRawData (_day : Date) (_onlyIndexes : Bool) :
    Except PyErr (List Payload × List Nat) :=
  .error .nameError

/-- Sequential branch of `CMSDatasetV0.extract` (generator.py lines
262-288, 368-414): generate the window and the next window with stride 1,
call `get_raw_data` for every day (full records for the window, only
indexes for the next window), concatenate the per-day records, union the
per-day key sets, and build the output data.  Exceptions propagate: there
is no handler anywhere in `extract`. -/
def extractSeq (es : Bool) (y m d : Nat) (ws : Int) :
    Except PyErr (List (Nat × SimpleRecord) × Option (List ((Nat × Nat) × Nat))) :=
  match genInterval y m d ws 1 false, genInterval y m d ws 1 true with
  | some (wdays, false), some (ndays, false) =>
    (do
      let window ← wdays.mapM (fun day => getRawData day false)
      let nextw ← ndays.mapM (fun day => getRawData day true)
      let data := window.foldl (fun acc p => acc ++ p.1) []
      let nidx := nextw.foldl (fun acc p => acc ++ p.2) []
      pure (extractOutput es data nidx))
  | _, _ => .error .overflowError

/-- An `HTTPFS.open` oracle that always succeeds. -/
def openNoFail : Nat → Except PyErr Unit := fun _ => .ok ()

/-- The multiprocess scheduling loop of `extract` (generator.py lines
336-355), with tasks as the listed file paths.  Each iteration of
`while len(all_tasks) > 0 or len(launched_processes) > 0` either starts a
worker (when the budget has room and tasks remain: open the file - whose
failure propagates - pop the task and append to `launched_processes`,
which is never emptied), or runs the flush branch, whose second statement
`window_indexes += flush_queue(task_window_indexes)` adds a list to a set
and therefore raises `TypeError`; when neither branch applies
(`num_processes = 0` with tasks pending) the loop body does nothing and
the loop never terminates, modelled as `blocked`. -/
def multiLoop (numProc : Nat) (openF : Nat → Except PyErr Unit) :
    List Nat → Nat → Except PyErr Nat
  | [], 0 => .ok 0
  | [], _ + 1 => .error .typeError
  | t :: rest, launched =>
    if launched < numProc then
      match openF t with
      | .error e => .error e
      | .ok _ => multiLoop numProc openF rest (launched + 1)
    else if 0 < launched then .error .typeError
    else .error .blocked

/-- Task construction of the multiprocess branch (generator.py lines
301-326): for every day of a window, list the directory of the day and append
one task per listed object; a listing failure propagates immediately. -/
def buildTasks (listing : Date → Except PyErr (List Nat)) (days : List Date) :
    Except PyErr (List Nat) :=
  days.foldlM (fun acc day => do
    let files ← listing day
    pure (acc ++ files)) []

/-- Multiprocess branch of `CMSDatasetV0.extract` (generator.py lines
262-272, 289-366): generate both windows with stride 1, build the task
list from the per-day listings, run the scheduling loop, and afterwards
execute `data += task_data.get()` (line 359); when the loop ever exits
normally no worker was ever started, so every queue is empty and that
`get()` blocks forever. -/
def extractMulti (numProc : Nat) (listing : Date → Except PyErr (List Nat))
    (openF : Nat → Except PyErr Unit) (y m d : Nat) (ws : Int) :
    Except PyErr (List (Nat × SimpleRecord) × Option (List ((Nat × Nat) × Nat))) :=
  match genInterval y m d ws 1 false, genInterval y m d ws 1 true with
  | some (wdays, false), some (ndays, false) =>
    (do
      let wtasks ← buildTasks listing wdays
      let ntasks ← buildTasks listing ndays
      match multiLoop numProc openF (wtasks ++ ntasks) 0 with
      | .error e => .error e
      | .ok _ => .error .blocked)
  | _, _ => .error .overflowError

/-- Modelled from the spec: raw row record as consumed by
`CMSDataPopularityRaw` inside `CMSDatasetV0Process.run` (the class lives in
DataManager/collector/datafeatures/extractor.py, not under src/): a
validity flag, the identity key, and an abstract dump payload. -/
structure RawRec where
  valid : Bool
  fileName : Nat
  payload : Nat
deriving DecidableEq, Repr

/-- Result of one worker extraction: the dumps put on the data queue, the
file names put on the index queue, and how many input records the
`for idx, record in enumerate(collector, 1)` loop examined. -/
structure RunResult where
  dataOut : List Nat
  idxOut : List Nat
  examined : Nat
deriving DecidableEq, Repr

/-- The record loop of `CMSDatasetV0Process.run` (generator.py lines
48-57), with `n` records already examined: each record is counted; a valid
record is extracted (its dump is queued unless `only_indexes`, its file
name always), and only then, still inside the `if obj:` branch, the loop
breaks when the running index exceeds 10000.  Invalid records never reach
the break check. -/
def procGo (onlyIdx : Bool) : List RawRec → Nat → RunResult
  | [], n => ⟨[], [], n⟩
  | r :: rs, n =>
    if r.valid then
      if n + 1 > 10000 then
        ⟨if onlyIdx then [] else [r.payload], [r.fileName], n + 1⟩
      else
        let res := procGo onlyIdx rs (n + 1)
        ⟨(if onlyIdx then [] else [r.payload]) ++ res.dataOut,
          r.fileName :: res.idxOut, res.examined⟩
    else procGo onlyIdx rs (n + 1)

/-- Worker extraction over a whole collection (generator.py lines 40-71;
the progress reporting is a logging concern with no functional effect). -/
def procRun (onlyIdx : Bool) (recs : List RawRec) : RunResult :=
  procGo onlyIdx recs 0

/-- One-based position of the first record that triggers the break of the
`run` loop: a valid record examined at a position strictly beyond 10000. -/
def firstTriggerAux : List RawRec → Nat → Option Nat
  | [], _ => none
  | r :: rs, n =>
    if r.valid ∧ n + 1 > 10000 then some (n + 1) else firstTriggerAux rs (n + 1)

/-- First break-triggering position of a collection, if any. -/
def firstTrigger (recs : List RawRec) : Option Nat :=
  firstTriggerAux recs 0

/-- Which of the mutually exclusive retrieval sources of `CMSDatasetV0` is
configured (generator.py lines 91-107): exactly one of httpfs, hdfs or a
local folder, or none of them. -/
inductive SourceCfg where
  | httpfs
  | hdfs
  | local
  | noSource
deriving DecidableEq, Repr

/-- Embedding of `CMSDatasetV0.get_data_collector` (generator.py lines
126-152).  httpfs: list the directory of the day (failures propagate), open
every listed object binding `collector` to the last one; an empty listing
leaves `collector` unbound so the final read raises (modelled as
`nameError`).  hdfs: line 138 reads `self._spark_hdfs_base_path`, an
attribute that is never assigned (the constructor sets `_hdfs_base_path`),
so this branch raises `AttributeError`.  local: builds a path and hands it
to the external `DataFile`, abstracted as an oracle.  No configured
source: `raise Exception("No methods to retrieve data...")`. -/
def getDataCollector (cfg : SourceCfg)
    (listing : Date → Except PyErr (List Nat))
    (openF : Nat → Except PyErr Nat)
    (openLocal : Date → Except PyErr Nat) (day : Date) : Except PyErr Nat :=
  match cfg with
  | .httpfs => do
    let files ← listing day
    let c ← files.foldlM (fun _last p => do
      let f ← openF p
      pure (some f)) (none : Option Nat)
    match c with
    | some collector => pure collector
    | none => .error .nameError
  | .hdfs => .error .attributeError
  | .local => openLocal day
  | .noSource => .error .noMethods

/-! ### Calendar lemmas -/

theorem daysInMonth_pos (y m : Nat) : 0 < daysInMonth y m := by
  unfold daysInMonth
  split
  · split <;> omega
  · split <;> omega

theorem daysBeforeMonth_succ (y m : Nat) (h1 : 1 ≤ m) (h2 : m ≤ 11) :
    daysBeforeMonth y (m + 1) = daysBeforeMonth y m + daysInMonth y m := by
  interval_cases m <;>
    cases h : isLeap y <;>
      simp [daysBeforeMonth, daysInMonth, h]

theorem isLeap_iff (y : Nat) :
    isLeap y = true ↔ y % 4 = 0 ∧ (y % 100 ≠ 0 ∨ y % 400 = 0) := by
  simp [isLeap]

theorem daysBeforeYear_succ (y : Nat) (h : 1 ≤ y) :
    daysBeforeYear (y + 1) = daysBeforeYear y + (if isLeap y then 366 else 365) := by
  unfold daysBeforeYear
  split
  case isTrue hb => rw [isLeap_iff] at hb; omega
  case isFalse hb => rw [isLeap_iff] at hb; omega

theorem daysBeforeYear_mono {a b : Nat} (h1 : 1 ≤ a) (h : a ≤ b) :
    daysBeforeYear a ≤ daysBeforeYear b := by
  induction b, h using Nat.le_induction with
  | base => exact Nat.le_refl _
  | succ b hab ih =>
    have hs := daysBeforeYear_succ b (by omega)
    split at hs <;> omega

theorem daysBeforeMonth_day_le (y m d : Nat) (h1 : 1 ≤ m) (h2 : m ≤ 12)
    (h3 : d ≤ daysInMonth y m) :
    daysBeforeMonth y m + d ≤ (if isLeap y then 366 else 365) := by
  interval_cases m <;>
    cases h : isLeap y <;>
      simp_all [daysBeforeMonth, daysInMonth] <;> omega

theorem daysBeforeYear_9999 : daysBeforeYear 9999 = 3651694 := by decide

theorem toOrdinal_maxDate : toOrdinal maxDate = MAXORD := by decide

theorem Valid_mk (y m d : Nat) :
    Valid ⟨y, m, d⟩ ↔
      1 ≤ y ∧ y ≤ 9999 ∧ 1 ≤ m ∧ m ≤ 12 ∧ 1 ≤ d ∧ d ≤ daysInMonth y m :=
  Iff.rfl

theorem toOrdinal_mk (y m d : Nat) :
    toOrdinal ⟨y, m, d⟩ = daysBeforeYear y + daysBeforeMonth y m + d :=
  rfl

theorem toOrdinal_lt_MAXORD {t : Date} (hv : Valid t) (hne : t ≠ maxDate) :
    toOrdinal t < MAXORD := by
  obtain ⟨y, m, d⟩ := t
  rw [Valid_mk] at hv
  obtain ⟨hy1, hy2, hm1, hm2, hd1, hd2⟩ := hv
  rw [toOrdinal_mk]
  by_cases hy : y ≤ 9998
  · have hmd := daysBeforeMonth_day_le y m d hm1 hm2 hd2
    have hs := daysBeforeYear_succ y hy1
    have hmono : daysBeforeYear (y + 1) ≤ daysBeforeYear 9999 :=
      daysBeforeYear_mono (by omega) (by omega)
    have h99 := daysBeforeYear_9999
    unfold MAXORD
    cases hl : isLeap y <;> simp only [hl] at hmd hs <;> simp at hmd hs <;> omega
  · have hy9 : y = 9999 := by omega
    subst hy9
    have hleap : isLeap 9999 = false := by decide
    have hne' : ¬(m = 12 ∧ d = 31) := by
      rintro ⟨hm, hd⟩
      exact hne (by simp [maxDate, hm, hd])
    unfold MAXORD
    rw [daysBeforeYear_9999]
    interval_cases m <;> simp_all [daysBeforeMonth, daysInMonth] <;> omega

theorem toOrdinal_le_MAXORD {t : Date} (hv : Valid t) : toOrdinal t ≤ MAXORD := by
  by_cases h : t = maxDate
  · subst h; exact Nat.le_of_eq toOrdinal_maxDate
  · exact Nat.le_of_lt (toOrdinal_lt_MAXORD hv h)

theorem nextDay_spec {t : Date} (hv : Valid t) (hne : t ≠ maxDate) :
    Valid (nextDay t) ∧ toOrdinal (nextDay t) = toOrdinal t + 1 := by
  obtain ⟨y, m, d⟩ := t
  rw [Valid_mk] at hv
  obtain ⟨hy1, hy2, hm1, hm2, hd1, hd2⟩ := hv
  by_cases hd : d < daysInMonth y m
  · simp only [nextDay, hd, if_true]
    refine ⟨(Valid_mk _ _ _).mpr ⟨hy1, hy2, hm1, hm2, by omega, by omega⟩, ?_⟩
    rw [toOrdinal_mk, toOrdinal_mk]
    omega
  · have hdm : d = daysInMonth y m := by omega
    by_cases hm : m < 12
    · simp only [nextDay, hd, if_false, hm, if_true]
      have hsucc := daysBeforeMonth_succ y m hm1 (by omega)
      refine ⟨(Valid_mk _ _ _).mpr ⟨hy1, hy2, by omega, by omega, Nat.le_refl 1,
        daysInMonth_pos y (m + 1)⟩, ?_⟩
      rw [toOrdinal_mk, toOrdinal_mk]
      omega
    · have hm12 : m = 12 := by omega
      subst hm12
      have hd31 : d = 31 := by
        simpa [daysInMonth] using hdm
      subst hd31
      have hy9 : y ≠ 9999 := by
        intro h
        exact hne (by simp [maxDate, h])
      simp only [nextDay, hd, if_false, hm, if_true]
      have hsucc := daysBeforeYear_succ y hy1
      have h334 : daysBeforeMonth y 12 = 334 + (if isLeap y then 1 else 0) := by
        cases h : isLeap y <;> simp [daysBeforeMonth, h]
      have h0 : daysBeforeMonth (y + 1) 1 = 0 := by
        cases h : isLeap (y + 1) <;> simp [daysBeforeMonth, h]
      refine ⟨(Valid_mk _ _ _).mpr ⟨by omega, by omega, by omega, by omega, by omega, ?_⟩, ?_⟩
      · simp [daysInMonth]
      · rw [toOrdinal_mk, toOrdinal_mk, h0, h334]
        split at hsucc <;> split at h334 <;> simp_all <;> omega

theorem upIter_some :
    ∀ (n : Nat) {t : Date}, Valid t → toOrdinal t + n ≤ MAXORD →
      ∃ u, upIter t n = some u ∧ Valid u ∧ toOrdinal u = toOrdinal t + n := by
  intro n
  induction n with
  | zero => exact fun hv _ => ⟨_, rfl, hv, rfl⟩
  | succ n ih =>
    intro t hv hn
    have hne : t ≠ maxDate := by
      intro h
      subst h
      rw [toOrdinal_maxDate] at hn
      omega
    obtain ⟨hvn, hord⟩ := nextDay_spec hv hne
    obtain ⟨u, hu, huv, huo⟩ := ih hvn (by omega)
    exact ⟨u, by simp [upIter, hne, hu], huv, by omega⟩

theorem upIter_none :
    ∀ (n : Nat) {t : Date}, Valid t → MAXORD < toOrdinal t + n →
      upIter t n = none := by
  intro n
  induction n with
  | zero =>
    intro t hv hn
    have := toOrdinal_le_MAXORD hv
    omega
  | succ n ih =>
    intro t hv hn
    by_cases hne : t = maxDate
    · simp [upIter, hne]
    · obtain ⟨hvn, hord⟩ := nextDay_spec hv hne
      have := ih hvn (by omega)
      simp [upIter, hne, this]

theorem upIter_ok_spec {t u : Date} {n : Nat} (hv : Valid t)
    (h : upIter t n = some u) :
    Valid u ∧ toOrdinal u = toOrdinal t + n ∧ toOrdinal t + n ≤ MAXORD := by
  by_cases hb : toOrdinal t + n ≤ MAXORD
  · obtain ⟨u', hu', hv', ho'⟩ := upIter_some n hv hb
    rw [hu'] at h
    injection h with h
    subst h
    exact ⟨hv', ho', hb⟩
  · rw [upIter_none n hv (by omega)] at h
    exact absurd h (by simp)

theorem upIter_add (t : Date) (a b : Nat) :
    upIter t (a + b) = (upIter t a).bind (fun u => upIter u b) := by
  induction a generalizing t with
  | zero => simp [upIter]
  | succ a ih =>
    by_cases h : t = maxDate
    · simp [upIter, Nat.succ_add, h]
    · simp [upIter, Nat.succ_add, h, ih (nextDay t)]

theorem addDaysB_nat (t : Date) (k : Nat) : addDaysB t (↑k) = upIter t k := by
  simp [addDaysB]

/-! ### Behaviour of the generator loop -/

theorem genLoopF_div :
    ∀ (n : Nat) {fuel : Nat} {s e : Date} {stn : Nat}, 0 < stn → Valid s →
      n < fuel → upIter s (n * stn) = some e →
      ∃ l, genLoopF fuel s e (↑stn) = some (l, false) ∧ l.length = n ∧
        ∀ i (h : i < l.length), upIter s (i * stn) = some (l.get ⟨i, h⟩) := by
  intro n
  induction n with
  | zero =>
    intro fuel s e stn hst hv hfuel hup
    rw [Nat.zero_mul, show upIter s 0 = some s from rfl] at hup
    injection hup with hup
    subst hup
    obtain ⟨f, rfl⟩ : ∃ f, fuel = f + 1 := ⟨fuel - 1, by omega⟩
    exact ⟨[], by simp [genLoopF], rfl, fun i h => absurd h (by simp)⟩
  | succ n ih =>
    intro fuel s e stn hst hv hfuel hup
    obtain ⟨hev, heo, hbnd⟩ := upIter_ok_spec hv hup
    have hstle : stn ≤ (n + 1) * stn := Nat.le_mul_of_pos_left stn (by omega)
    have hpos : 0 < (n + 1) * stn := by omega
    have hne : s ≠ e := by
      intro h
      subst h
      omega
    have hsplit : (n + 1) * stn = stn + n * stn := by ring
    rw [hsplit, upIter_add] at hup
    obtain ⟨s', hs', hvs', hos'⟩ := upIter_some stn hv (by omega)
    rw [hs'] at hup
    simp only [Option.some_bind] at hup
    obtain ⟨f, rfl⟩ : ∃ f, fuel = f + 1 := ⟨fuel - 1, by omega⟩
    obtain ⟨l, hl, hlen, hidx⟩ := @ih f s' e stn hst hvs' (by omega) hup
    refine ⟨s :: l, ?_, by simp [hlen], ?_⟩
    · simp [genLoopF, hne, addDaysB_nat, hs', hl]
    · intro i h
      match i with
      | 0 => simp [upIter]
      | i + 1 =>
        have hsplit' : (i + 1) * stn = stn + i * stn := by ring
        rw [hsplit', upIter_add, hs']
        simp only [Option.some_bind]
        exact hidx i (by simpa using h)

theorem genLoopF_nondiv :
    ∀ (fuel : Nat) {s e : Date} {stn : Nat}, 0 < stn → Valid s →
      (∀ j : Nat, toOrdinal s + j * stn ≠ toOrdinal e) →
      MAXORD < toOrdinal s + fuel →
      ∃ l, genLoopF fuel s e (↑stn) = some (l, true) ∧
        l.length = (MAXORD - toOrdinal s) / stn + 1 := by
  intro fuel
  induction fuel with
  | zero =>
    intro s e stn hst hv hj hfuel
    have := toOrdinal_le_MAXORD hv
    omega
  | succ fuel ih =>
    intro s e stn hst hv hj hfuel
    have hne : s ≠ e := by
      intro h
      exact hj 0 (by simp [h])
    by_cases hov : toOrdinal s + stn ≤ MAXORD
    · obtain ⟨s', hs', hvs', hos'⟩ := upIter_some stn hv hov
      have hj' : ∀ j : Nat, toOrdinal s' + j * stn ≠ toOrdinal e := by
        intro j hcon
        apply hj (j + 1)
        have : (j + 1) * stn = j * stn + stn := by ring
        omega
      obtain ⟨l, hl, hlen⟩ := ih hst hvs' hj' (by omega)
      refine ⟨s :: l, by simp [genLoopF, hne, addDaysB_nat, hs', hl], ?_⟩
      simp only [List.length_cons, hlen, hos']
      have h2 : MAXORD - (toOrdinal s + stn) = MAXORD - toOrdinal s - stn := by
        omega
      rw [h2]
      nth_rewrite 2 [show MAXORD - toOrdinal s = (MAXORD - toOrdinal s - stn) + stn from by omega]
      rw [Nat.add_div_right _ hst]
    · have hnone := upIter_none stn hv (by omega)
      refine ⟨[s], by simp [genLoopF, hne, addDaysB_nat, hnone], ?_⟩
      simp [Nat.div_eq_of_lt (show MAXORD - toOrdinal s < stn from by omega)]

/-! ### Claim theorems about the date-window generator -/

/-- C1 (counterexample): with start date 2018-01-01, window_size 3 and
stride 2 the claim demands ceil(3/2) = 2 triples, but the loop condition
`start_date != end_date` is never satisfied (the stride steps over the end
date), so the generator yields a triple every 2 days until the calendar
maximum - 1457683 triples - and then raises OverflowError. -/
theorem c1_ceil_counterexample :
    (genInterval 2018 1 1 3 2 false).map (fun p => (p.1.length, p.2)) =
      some (1457683, true) := by
  have hv : Valid ⟨2018, 1, 1⟩ := by decide
  have he : upIter (⟨2018, 1, 1⟩ : Date) 3 = some ⟨2018, 1, 4⟩ := by decide
  have hj : ∀ j : Nat,
      toOrdinal (⟨2018, 1, 1⟩ : Date) + j * 2 ≠ toOrdinal (⟨2018, 1, 4⟩ : Date) := by
    intro j
    have h1 : toOrdinal (⟨2018, 1, 1⟩ : Date) = 736695 := by decide
    have h2 : toOrdinal (⟨2018, 1, 4⟩ : Date) = 736698 := by decide
    omega
  obtain ⟨l, hl, hlen⟩ :=
    genLoopF_nondiv FUEL (show 0 < 2 from by decide) hv hj (by decide)
  have hgen : genInterval 2018 1 1 3 2 false =
      genLoopF FUEL ⟨2018, 1, 1⟩ ⟨2018, 1, 4⟩ 2 := by
    unfold genInterval
    rw [if_pos hv]
    have h3 : addDaysB (⟨2018, 1, 1⟩ : Date) 3 = some ⟨2018, 1, 4⟩ := by decide
    simp [h3]
  have hl2 : genLoopF FUEL ⟨2018, 1, 1⟩ ⟨2018, 1, 4⟩ 2 = some (l, true) := by
    exact_mod_cast hl
  have hlen2 : l.length = 1457683 := by
    rw [hlen]
    decide
  rw [hgen, hl2]
  simp [hlen2]

/-- C1 (amended): when the stride divides the window size (in particular
for the default stride 1) and the whole window is representable, the
generator terminates normally with exactly window_size / stride triples
(which then equals ceil(window_size/stride)), the first triple is the start
date, every triple is a valid calendar date, and consecutive triples are
exactly `stride` calendar days apart. -/
theorem c1_gen_interval_window_divisible (y m d ws stn : Nat)
    (hv : Valid ⟨y, m, d⟩) (hst : 0 < stn) (hws : 0 < ws) (hdvd : stn ∣ ws)
    (hbnd : toOrdinal ⟨y, m, d⟩ + ws ≤ MAXORD) :
    ∃ l, genInterval y m d (↑ws) (↑stn) false = some (l, false) ∧
      l.length = ws / stn ∧
      l.head? = some ⟨y, m, d⟩ ∧
      (∀ i (h : i < l.length), Valid (l.get ⟨i, h⟩)) ∧
      (∀ i (h1 : i + 1 < l.length) (h2 : i < l.length),
        toOrdinal (l.get ⟨i + 1, h1⟩) = toOrdinal (l.get ⟨i, h2⟩) + stn) := by
  obtain ⟨e, he, hev, heo⟩ := upIter_some ws hv hbnd
  have hmul : (ws / stn) * stn = ws := Nat.div_mul_cancel hdvd
  have hlenpos : 0 < ws / stn :=
    Nat.div_pos (Nat.le_of_dvd hws hdvd) hst
  have hfuel : ws / stn < FUEL := by
    have h1 : ws / stn ≤ ws := Nat.div_le_self ws stn
    have h2 := toOrdinal_le_MAXORD hev
    unfold FUEL MAXORD at *
    omega
  obtain ⟨l, hl, hlen, hidx⟩ :=
    genLoopF_div (ws / stn) hst hv hfuel (by rw [hmul]; exact he)
  have hgen : genInterval y m d (↑ws) (↑stn) false =
      genLoopF FUEL ⟨y, m, d⟩ e (↑stn) := by
    unfold genInterval
    rw [if_pos hv]
    simp [addDaysB_nat, he]
  refine ⟨l, by rw [hgen]; exact hl, hlen, ?_, ?_, ?_⟩
  · obtain ⟨a, l', rfl⟩ : ∃ a l', l = a :: l' := by
      cases l with
      | nil => rw [List.length_nil] at hlen; omega
      | cons a l' => exact ⟨a, l', rfl⟩
    have h0 := hidx 0 (by simp)
    rw [Nat.zero_mul, show upIter (⟨y, m, d⟩ : Date) 0 = some ⟨y, m, d⟩ from rfl] at h0
    injection h0 with h0
    simp [h0]
  · intro i h
    exact (upIter_ok_spec hv (hidx i h)).1
  · intro i h1 h2
    have ha := upIter_ok_spec hv (hidx i h2)
    have hb := upIter_ok_spec hv (hidx (i + 1) h1)
    have : (i + 1) * stn = i * stn + stn := by ring
    omega

/-- C1 (amended, witness): concrete instance with a month wrap - start
2018-01-29, window 4, stride 2 - produces the two triples
(2018,1,29), (2018,1,31). -/
theorem c1_gen_interval_window_divisible_witness :
    Valid ⟨2018, 1, 29⟩ ∧ (0 < 2 ∧ 0 < 4 ∧ 2 ∣ 4 ∧
        toOrdinal ⟨2018, 1, 29⟩ + 4 ≤ MAXORD) ∧
      ∃ l, genInterval 2018 1 29 4 2 false = some (l, false) ∧
        l.length = 4 / 2 ∧ l.head? = some ⟨2018, 1, 29⟩ := by
  refine ⟨by decide, ⟨by decide, by decide, by decide, by decide⟩, ?_⟩
  obtain ⟨l, h1, h2, h3, -, -⟩ :=
    c1_gen_interval_window_divisible 2018 1 29 4 2 (by decide) (by decide)
      (by decide) (by decide) (by decide)
  exact ⟨l, h1, h2, h3⟩

/-- C7 (amended): with stride 1, positive window size and the whole
current-plus-next span inside the representable date range, the
next_week=True sequence has the same length as the next_week=False
sequence, its first triple lies exactly window_size days after the first
triple of the plain sequence, and the two sequences share no triple.  The
representability hypothesis is necessary: without it the next-window
generation overflows (see the counterexample). -/
theorem c7_next_window_disjoint (y m d ws : Nat) (hv : Valid ⟨y, m, d⟩)
    (hws : 0 < ws) (hbnd : toOrdinal ⟨y, m, d⟩ + ws + ws ≤ MAXORD) :
    ∃ l l', genInterval y m d (↑ws) 1 false = some (l, false) ∧
      genInterval y m d (↑ws) 1 true = some (l', false) ∧
      l'.length = l.length ∧
      (∀ (h : 0 < l.length) (h' : 0 < l'.length),
        toOrdinal (l'.get ⟨0, h'⟩) = toOrdinal (l.get ⟨0, h⟩) + ws) ∧
      ∀ x ∈ l, x ∉ l' := by
  obtain ⟨e1, he1, hev1, heo1⟩ := upIter_some ws hv (by omega)
  obtain ⟨e2, he2, hev2, heo2⟩ := upIter_some ws hev1 (by omega)
  have hfuel : ws < FUEL := by
    have := toOrdinal_le_MAXORD hv
    unfold FUEL MAXORD at *
    omega
  obtain ⟨l, hl, hlen, hidx⟩ :=
    genLoopF_div ws (show (0:Nat) < 1 from by decide) hv hfuel
      (by rw [Nat.mul_one]; exact he1)
  obtain ⟨l', hl', hlen', hidx'⟩ :=
    genLoopF_div ws (show (0:Nat) < 1 from by decide) hev1 hfuel
      (by rw [Nat.mul_one]; exact he2)
  have hgen : genInterval y m d (↑ws) 1 false =
      genLoopF FUEL ⟨y, m, d⟩ e1 1 := by
    unfold genInterval
    rw [if_pos hv]
    have : addDaysB (⟨y, m, d⟩ : Date) (↑ws) = some e1 := by
      rw [addDaysB_nat]; exact he1
    simp [this]
  have hgen' : genInterval y m d (↑ws) 1 true =
      genLoopF FUEL e1 e2 1 := by
    unfold genInterval
    rw [if_pos hv]
    have h1 : addDaysB (⟨y, m, d⟩ : Date) (↑ws) = some e1 := by
      rw [addDaysB_nat]; exact he1
    have h2 : addDaysB e1 (↑ws) = some e2 := by
      rw [addDaysB_nat]; exact he2
    simp [h1, h2]
  have hl1 : genLoopF FUEL ⟨y, m, d⟩ e1 1 = some (l, false) := by
    exact_mod_cast hl
  have hl2 : genLoopF FUEL e1 e2 1 = some (l', false) := by
    exact_mod_cast hl'
  refine ⟨l, l', by rw [hgen]; exact hl1, by rw [hgen']; exact hl2,
    by omega, ?_, ?_⟩
  · intro h h'
    have h0 := hidx 0 (by omega)
    have h0' := hidx' 0 (by omega)
    rw [Nat.zero_mul, show upIter (⟨y, m, d⟩ : Date) 0 = some ⟨y, m, d⟩ from rfl] at h0
    rw [Nat.zero_mul, show upIter e1 0 = some e1 from rfl] at h0'
    injection h0 with h0
    injection h0' with h0'
    rw [← h0, ← h0']
    omega
  · intro x hx hx'
    obtain ⟨⟨i, hi⟩, hgi⟩ := List.mem_iff_get.mp hx
    obtain ⟨⟨i', hi'⟩, hgi'⟩ := List.mem_iff_get.mp hx'
    have ha := upIter_ok_spec hv (hidx i hi)
    have hb := upIter_ok_spec hev1 (hidx' i' hi')
    rw [hgi] at ha
    rw [hgi'] at hb
    rw [hlen] at hi
    rw [hlen'] at hi'
    omega

/-- C7 (amended, witness): start 2018-12-30, window 3: the window is
(2018,12,30), (2018,12,31), (2019,1,1) and the next window starts at
(2019,1,2), sharing no triple. -/
theorem c7_next_window_disjoint_witness :
    Valid ⟨2018, 12, 30⟩ ∧ (0 < 3 ∧ toOrdinal ⟨2018, 12, 30⟩ + 3 + 3 ≤ MAXORD) ∧
      ∃ l l', genInterval 2018 12 30 3 1 false = some (l, false) ∧
        genInterval 2018 12 30 3 1 true = some (l', false) ∧
        l'.length = l.length ∧ ∀ x ∈ l, x ∉ l' := by
  refine ⟨by decide, ⟨by decide, by decide⟩, ?_⟩
  obtain ⟨l, l', h1, h2, h3, -, h5⟩ :=
    c7_next_window_disjoint 2018 12 30 3 (by decide) (by decide) (by decide)
  exact ⟨l, l', h1, h2, h3, h5⟩

/-- C7 (counterexample): the claim quantifies over every start date and
positive window size, but at start 9999-12-20 with window_size 10 the
current window yields its 10 triples while the next-window generator
computes end_date = start + 2 * window_size, which passes date.max: it
raises OverflowError before its first yield, so the two sequences do not
have the same length and the next sequence has no first triple. -/
theorem c7_overflow_counterexample :
    (genInterval 9999 12 20 10 1 false).map (fun p => (p.1.length, p.2)) =
      some (10, false) ∧
    genInterval 9999 12 20 10 1 true = some ([], true) := by
  exact ⟨by decide, by decide⟩

/-- C8 (counterexample): for window_size = -1 (which the claim requires to
yield an empty sequence) the end date lies one day before the start date,
the loop condition `start_date != end_date` never becomes false, and the
generator yields 2915365 triples - one per day up to the calendar maximum -
before raising OverflowError. -/
theorem c8_negative_window_counterexample :
    (genInterval 2018 1 1 (-1) 1 false).map (fun p => (p.1.length, p.2)) =
      some (2915365, true) := by
  have hv : Valid ⟨2018, 1, 1⟩ := by decide
  have he : addDaysB (⟨2018, 1, 1⟩ : Date) (-1) = some ⟨2017, 12, 31⟩ := by decide
  have hj : ∀ j : Nat,
      toOrdinal (⟨2018, 1, 1⟩ : Date) + j * 1 ≠ toOrdinal (⟨2017, 12, 31⟩ : Date) := by
    intro j
    have h1 : toOrdinal (⟨2018, 1, 1⟩ : Date) = 736695 := by decide
    have h2 : toOrdinal (⟨2017, 12, 31⟩ : Date) = 736694 := by decide
    omega
  obtain ⟨l, hl, hlen⟩ :=
    genLoopF_nondiv FUEL (show 0 < 1 from by decide) hv hj (by decide)
  have hgen : genInterval 2018 1 1 (-1) 1 false =
      genLoopF FUEL ⟨2018, 1, 1⟩ ⟨2017, 12, 31⟩ 1 := by
    unfold genInterval
    rw [if_pos hv]
    simp [he]
  have hl2 : genLoopF FUEL ⟨2018, 1, 1⟩ ⟨2017, 12, 31⟩ 1 = some (l, true) := by
    exact_mod_cast hl
  have hlen2 : l.length = 2915365 := by
    rw [hlen]
    decide
  rw [hgen, hl2]
  simp [hlen2]

/-- C8 (amended): window_size = 0 does yield the empty sequence, for any
stride and for both window positions: the end date then equals the start
date and the loop exits before the first yield. -/
theorem c8_zero_window_empty (y m d : Nat) (st : Int) (nextWeek : Bool)
    (hv : Valid ⟨y, m, d⟩) :
    genInterval y m d 0 st nextWeek = some ([], false) := by
  unfold genInterval
  rw [if_pos hv]
  have h0 : addDaysB (⟨y, m, d⟩ : Date) 0 = some ⟨y, m, d⟩ := by
    simp [addDaysB]
    rfl
  have hloop : genLoopF FUEL ⟨y, m, d⟩ ⟨y, m, d⟩ st = some ([], false) := by
    rw [show FUEL = 3652059 + 1 from rfl]
    simp [genLoopF]
  cases nextWeek <;> simp [h0, hloop]

/-- C8 (amended, witness): concrete zero-size window. -/
theorem c8_zero_window_empty_witness :
    Valid ⟨2018, 5, 27⟩ ∧
      genInterval 2018 5 27 0 1 false = some ([], false) :=
  ⟨by decide, c8_zero_window_empty 2018 5 27 1 false (by decide)⟩

/-! ### The merge loop and the recurrence flag -/

theorem odInsert_inv (W nextIdx : List Nat) (acc : List (Nat × SimpleRecord))
    (k : Nat) (v : SimpleRecord)
    (hacc : ∀ p ∈ acc, (p.2.inNext = true ↔ p.1 ∈ W ∧ p.1 ∈ nextIdx))
    (hv : v.inNext = true ↔ k ∈ W ∧ k ∈ nextIdx) :
    ∀ p ∈ odInsert k v acc, (p.2.inNext = true ↔ p.1 ∈ W ∧ p.1 ∈ nextIdx) := by
  induction acc with
  | nil =>
    intro p hp
    simp [odInsert] at hp
    subst hp
    exact hv
  | cons q acc ih =>
    obtain ⟨k', v'⟩ := q
    intro p hp
    unfold odInsert at hp
    by_cases hk : k = k'
    · rw [if_pos hk] at hp
      rcases List.mem_cons.mp hp with hp | hp
      · subst hp
        subst hk
        have h1 := hacc (k, v') (List.mem_cons_self _ _)
        simp only [mergeRec, Bool.or_eq_true]
        simp only at h1
        tauto
      · exact hacc p (List.mem_cons_of_mem _ hp)
    · rw [if_neg hk] at hp
      rcases List.mem_cons.mp hp with hp | hp
      · subst hp
        exact hacc (k', v') (List.mem_cons_self _ _)
      · exact ih (fun p hp => hacc p (List.mem_cons_of_mem _ hp)) p hp

theorem outLoop_flag (W nextIdx : List Nat) (es : Bool) :
    ∀ (data : List Payload) (acc : List (Nat × SimpleRecord))
      (st : List (Nat × Nat)),
      (∀ p ∈ acc, (p.2.inNext = true ↔ p.1 ∈ W ∧ p.1 ∈ nextIdx)) →
      (∀ r ∈ data, r.valid = true → r.fileName ∈ W) →
      ∀ p ∈ (outLoop es nextIdx data acc st).1,
        (p.2.inNext = true ↔ p.1 ∈ W ∧ p.1 ∈ nextIdx) := by
  intro data
  induction data with
  | nil =>
    intro acc st hacc _ p hp
    exact hacc p hp
  | cons r rs ih =>
    intro acc st hacc hdata p hp
    unfold outLoop at hp
    by_cases hvr : r.valid = true
    · rw [if_pos hvr] at hp
      refine ih _ _ ?_ (fun r' h' hv' => hdata r' (List.mem_cons_of_mem _ h') hv') p hp
      apply odInsert_inv W nextIdx acc r.fileName _ hacc
      have hW : r.fileName ∈ W := hdata r (List.mem_cons_self _ _) hvr
      have hcont : nextIdx.contains r.fileName = true ↔ r.fileName ∈ nextIdx := by
        simp [List.contains, List.elem_iff]
      constructor
      · intro hx
        exact ⟨hW, hcont.mp hx⟩
      · intro hx
        exact hcont.mpr hx.2
    · rw [if_neg hvr] at hp
      exact ih _ _ hacc (fun r' h' hv' => hdata r' (List.mem_cons_of_mem _ h') hv') p hp

/-- C2: every record of the mapping built by the output loop of `extract`
has its "recurs in next window" flag set exactly when its identity key lies
in the intersection of the current-window key set (the keys of the records
of the window, which is what `extract` accumulates into `window_indexes`) and the
next-window key set; the flag depends only on the key, so a key occurring
in several raw records yields one consistent flag (marking is idempotent
and merging preserves it). -/
theorem c2_recurrence_flag (es : Bool) (data : List Payload)
    (nextIdx : List Nat) (k : Nat) (rec : SimpleRecord)
    (hmem : (k, rec) ∈ (createOutputData es data nextIdx).1) :
    rec.inNext = true ↔ k ∈ windowKeys data ∧ k ∈ nextIdx := by
  have h := outLoop_flag (windowKeys data) nextIdx es data [] []
    (by intro p hp; exact absurd hp (List.not_mem_nil p))
    (fun r hr _ => List.mem_map_of_mem (fun r => r.fileName) hr)
    (k, rec) hmem
  exact h

/-- C2 (witness): with two raw records for key 1 (both merged, key in next
window) and one for key 2 (not in next window), the merged record for key 1
carries the flag and it matches intersection membership. -/
theorem c2_recurrence_flag_witness :
    ((1, (⟨1, true, 2, [(5, 7)]⟩ : SimpleRecord)) ∈
      (createOutputData true
        [⟨true, 1, [(5, 6)]⟩, ⟨true, 2, []⟩, ⟨false, 3, []⟩, ⟨true, 1, [(5, 7)]⟩]
        [1]).1) ∧
    ((⟨1, true, 2, [(5, 7)]⟩ : SimpleRecord).inNext = true ↔
      1 ∈ windowKeys
        [⟨true, 1, [(5, 6)]⟩, ⟨true, 2, []⟩, ⟨false, 3, []⟩, ⟨true, 1, [(5, 7)]⟩] ∧
      1 ∈ [1]) :=
  ⟨by decide,
    c2_recurrence_flag true
      [⟨true, 1, [(5, 6)]⟩, ⟨true, 2, []⟩, ⟨false, 3, []⟩, ⟨true, 1, [(5, 7)]⟩]
      [1] 1 ⟨1, true, 2, [(5, 7)]⟩ (by decide)⟩

theorem outLoop_fst (nextIdx : List Nat) :
    ∀ (data : List Payload) (acc : List (Nat × SimpleRecord))
      (st st' : List (Nat × Nat)) (es es' : Bool),
      (outLoop es nextIdx data acc st).1 = (outLoop es' nextIdx data acc st').1 := by
  intro data
  induction data with
  | nil => intros; rfl
  | cons r rs ih =>
    intro acc st st' es es'
    unfold outLoop
    by_cases hv : r.valid = true <;> simp only [hv, if_true, if_false] <;>
      apply ih

/-- C10: calling extract with extract_support_tables=False returns an empty
support-table component (modelled as `none` for the `{}` of line 414) and
performs none of the support-table insert/reduce/index steps (all of them
are guarded by the flag), while the record mapping is exactly the one the
extract_support_tables=True call returns. -/
theorem c10_support_table_frame (data : List Payload) (nextIdx : List Nat) :
    extractOutput false data nextIdx =
      ((extractOutput true data nextIdx).1, none) := by
  have h := outLoop_fst nextIdx data [] [] [] false true
  unfold extractOutput createOutputData
  rcases hE : outLoop false nextIdx data [] [] with ⟨res, st⟩
  rcases hE' : outLoop true nextIdx data [] [] with ⟨res', st'⟩
  rw [hE, hE'] at h
  simp only [if_true, if_false, Bool.false_eq_true]
  simpa using h

/-! ### The multiprocess path -/

theorem multiLoop_always_fails :
    ∀ (tasks : List Nat) (launched numProc : Nat), 0 < numProc →
      (tasks ≠ [] ∨ 0 < launched) →
      multiLoop numProc openNoFail tasks launched = .error .typeError := by
  intro tasks
  induction tasks with
  | nil =>
    intro launched numProc _ hne
    match launched, hne with
    | l + 1, _ => rfl
    | 0, hne =>
      rcases hne with hne | hne
      · exact absurd rfl hne
      · omega
  | cons t rest ih =>
    intro launched numProc h hne
    unfold multiLoop
    by_cases hl : launched < numProc
    · rw [if_pos hl]
      exact ih (launched + 1) numProc h (Or.inr (by omega))
    · rw [if_neg hl, if_pos (by omega)]

/-- C4: the scheduling loop never reaches the claimed completion state.  As
soon as one task exists it launches a worker and then enters the flush
branch, whose `window_indexes += flush_queue(...)` adds a list to a set and
raises TypeError while the launched worker is still in
`launched_processes` (a list that is never emptied, so "no launched workers
remain in flight" is unreachable with a nonempty task list). -/
theorem c4_scheduler_no_clean_completion :
    multiLoop 1 openNoFail [0] 0 = .error .typeError ∧
    multiLoop 4 openNoFail [0, 1, 2] 0 = .error .typeError ∧
    multiLoop 2 openNoFail [] 0 = .ok 0 :=
  ⟨rfl, rfl, rfl⟩

/-- C5: `get_raw_data` never returns the promised records and key set: its
first statement formats `full_path`, a name that is bound nowhere, so every
call raises NameError for either value of only_indexes. -/
theorem c5_get_raw_data_name_error :
    getRawData ⟨2018, 1, 1⟩ false = .error .nameError ∧
    getRawData ⟨2018, 1, 1⟩ true = .error .nameError :=
  ⟨rfl, rfl⟩

/-- C3: the multiprocess and sequential paths of `extract` never agree.
With an empty window the sequential path returns the (empty) mapping while
the multiprocess path blocks forever on `task_data.get()`; with a nonempty
window the sequential path raises NameError (inside `get_raw_data`) while
the multiprocess path raises TypeError (in the scheduling loop), so no
common result is ever produced. -/
theorem c3_parallel_vs_sequential_divergence :
    extractSeq true 2018 1 1 0 = .ok (extractOutput true [] []) ∧
    extractMulti 1 (fun _ => .ok [0]) openNoFail 2018 1 1 0 = .error .blocked ∧
    extractSeq true 2018 1 1 1 = .error .nameError ∧
    extractMulti 1 (fun _ => .ok [0]) openNoFail 2018 1 1 1 = .error .typeError :=
  ⟨rfl, rfl, rfl, rfl⟩

/-! ### The worker cap -/

theorem procGo_examined (b : Bool) :
    ∀ (recs : List RawRec) (n : Nat),
      (procGo b recs n).examined =
        (firstTriggerAux recs n).getD (n + recs.length) := by
  intro recs
  induction recs with
  | nil => intro n; simp [procGo, firstTriggerAux]
  | cons r rs ih =>
    intro n
    unfold procGo firstTriggerAux
    by_cases hv : r.valid = true
    · by_cases hc : n + 1 > 10000
      · simp [hv, hc]
      · have hlen : n + 1 + rs.length = n + (r :: rs).length := by
          simp
          omega
        simp [hv, hc, ih (n + 1), hlen]
    · have hlen : n + 1 + rs.length = n + (r :: rs).length := by
        simp
        omega
      simp [hv, ih (n + 1), hlen]

theorem firstTriggerAux_append (xs ys : List RawRec) :
    ∀ n, firstTriggerAux (xs ++ ys) n =
      match firstTriggerAux xs n with
      | some p => some p
      | none => firstTriggerAux ys (n + xs.length) := by
  induction xs with
  | nil => intro n; simp [firstTriggerAux]
  | cons r rs ih =>
    intro n
    have hstep : ∀ (l : List RawRec) (m : Nat),
        firstTriggerAux (r :: l) m =
          if r.valid = true ∧ m + 1 > 10000 then some (m + 1)
          else firstTriggerAux l (m + 1) := fun _ _ => rfl
    rw [List.cons_append, hstep, hstep]
    by_cases hc : r.valid = true ∧ n + 1 > 10000
    · simp [hc]
    · have hlen : n + 1 + rs.length = n + (r :: rs).length := by
        simp
        omega
      rw [if_neg hc, if_neg hc, ih (n + 1), hlen]

theorem firstTriggerAux_replicate_valid (k : Nat) (r : RawRec) :
    ∀ n, n + k ≤ 10000 → firstTriggerAux (List.replicate k r) n = none := by
  induction k with
  | zero => intro n _; rfl
  | succ k ih =>
    intro n hn
    rw [List.replicate_succ]
    unfold firstTriggerAux
    rw [if_neg (by rintro ⟨-, h⟩; omega)]
    exact ih (n + 1) (by omega)

theorem firstTriggerAux_replicate_invalid (k : Nat) (r : RawRec)
    (hr : r.valid = false) : ∀ n, firstTriggerAux (List.replicate k r) n = none := by
  induction k with
  | zero => intro n; rfl
  | succ k ih =>
    intro n
    rw [List.replicate_succ]
    unfold firstTriggerAux
    rw [if_neg (by rintro ⟨h, -⟩; rw [hr] at h; exact Bool.false_ne_true h)]
    exact ih (n + 1)

/-- C6 (counterexample): the cap does not bound examined records.  A
collection of 10000 valid records, then 5 invalid ones, then one valid
record makes the loop examine 10006 records: the 5 invalid records beyond
the cap never reach the break check (it sits inside `if obj:`), so
iteration continues past the cap until a valid record is met. -/
theorem c6_cap_counterexample :
    (procRun false (List.replicate 10000 (⟨true, 7, 0⟩ : RawRec) ++
      (List.replicate 5 (⟨false, 8, 0⟩ : RawRec) ++ [⟨true, 9, 0⟩]))).examined =
      10006 := by
  unfold procRun
  rw [procGo_examined]
  rw [firstTriggerAux_append]
  rw [firstTriggerAux_replicate_valid 10000 _ 0 (by omega)]
  simp only [List.length_replicate, Nat.zero_add]
  rw [firstTriggerAux_append]
  rw [firstTriggerAux_replicate_invalid 5 _ rfl]
  simp only [List.length_replicate]
  rw [show firstTriggerAux [(⟨true, 9, 0⟩ : RawRec)] (10000 + 5) = some 10006 from rfl]
  rfl

/-- C6 (amended): the break fires only at a valid record examined beyond
position 10000: the number of examined records equals the position of the
first such record, and when every record past position 10000 is invalid the
whole collection is examined - the cap bounds extractions-after-the-cap,
not examined records. -/
theorem c6_cap_characterisation (b : Bool) (recs : List RawRec) :
    (procRun b recs).examined = (firstTrigger recs).getD recs.length := by
  unfold procRun firstTrigger
  simpa using procGo_examined b recs 0


/-! ### Error propagation -/

theorem foldlM_listing_error (listing : Date → Except PyErr (List Nat)) :
    ∀ (days : List Date) (acc : List Nat),
      (∃ d0 ∈ days, ∃ e, listing d0 = .error e) →
      ∃ e2, (∃ d0 ∈ days, listing d0 = .error e2) ∧
        List.foldlM (fun acc day => do
          let files ← listing day
          pure (acc ++ files)) acc days = .error e2 := by
  intro days
  induction days with
  | nil =>
    rintro acc ⟨d0, hd0, -⟩
    exact absurd hd0 (List.not_mem_nil d0)
  | cons d ds ih =>
    rintro acc ⟨d0, hd0, e, he⟩
    cases hls : listing d with
    | error e1 =>
      refine ⟨e1, ⟨d, List.mem_cons_self _ _, hls⟩, ?_⟩
      simp [List.foldlM, hls]
      rfl
    | ok files =>
      have hin : ∃ d0 ∈ ds, ∃ e, listing d0 = .error e := by
        rcases List.mem_cons.mp hd0 with h | h
        · subst h
          rw [hls] at he
          exact absurd he (by simp)
        · exact ⟨d0, h, e, he⟩
      obtain ⟨e2, ⟨d1, hd1, hl1⟩, hres⟩ := ih (acc ++ files) hin
      refine ⟨e2, ⟨d1, List.mem_cons_of_mem _ hd1, hl1⟩, ?_⟩
      simp [List.foldlM, hls]
      exact hres

theorem foldlM_listing_ok (listing : Date → Except PyErr (List Nat)) :
    ∀ (days : List Date) (acc : List Nat),
      (∀ d0 ∈ days, ∃ fs, listing d0 = .ok fs) →
      ∃ ts, List.foldlM (fun acc day => do
          let files ← listing day
          pure (acc ++ files)) acc days = .ok ts := by
  intro days
  induction days with
  | nil => intro acc _; exact ⟨acc, rfl⟩
  | cons d ds ih =>
    intro acc hall
    obtain ⟨fs, hfs⟩ := hall d (List.mem_cons_self _ _)
    obtain ⟨ts, hts⟩ := ih (acc ++ fs) (fun d0 h => hall d0 (List.mem_cons_of_mem _ h))
    refine ⟨ts, ?_⟩
    simp [List.foldlM, hfs]
    exact hts

theorem foldlM_open_error (openF : Nat → Except PyErr Nat) :
    ∀ (files : List Nat) (acc : Option Nat),
      (∃ p ∈ files, ∃ e, openF p = .error e) →
      ∃ e2, (∃ p ∈ files, openF p = .error e2) ∧
        List.foldlM (fun _last p => do
          let f ← openF p
          pure (some f)) acc files = .error e2 := by
  intro files
  induction files with
  | nil =>
    rintro acc ⟨p, hp, -⟩
    exact absurd hp (List.not_mem_nil p)
  | cons p ps ih =>
    rintro acc ⟨p0, hp0, e, he⟩
    cases hop : openF p with
    | error e1 =>
      refine ⟨e1, ⟨p, List.mem_cons_self _ _, hop⟩, ?_⟩
      simp [List.foldlM, hop]
      rfl
    | ok v =>
      have hin : ∃ p0 ∈ ps, ∃ e, openF p0 = .error e := by
        rcases List.mem_cons.mp hp0 with h | h
        · subst h
          rw [hop] at he
          exact absurd he (by simp)
        · exact ⟨p0, h, e, he⟩
      obtain ⟨e2, ⟨p1, hp1, hl1⟩, hres⟩ := ih (some v) hin
      refine ⟨e2, ⟨p1, List.mem_cons_of_mem _ hp1, hl1⟩, ?_⟩
      simp [List.foldlM, hop]
      exact hres

theorem buildTasks_error (listing : Date → Except PyErr (List Nat))
    (days : List Date) (h : ∃ d0 ∈ days, ∃ e, listing d0 = .error e) :
    ∃ e2, (∃ d0 ∈ days, listing d0 = .error e2) ∧
      buildTasks listing days = .error e2 := by
  unfold buildTasks
  exact foldlM_listing_error listing days [] h

theorem buildTasks_ok (listing : Date → Except PyErr (List Nat))
    (days : List Date) (h : ∀ d0 ∈ days, ∃ fs, listing d0 = .ok fs) :
    ∃ ts, buildTasks listing days = .ok ts := by
  unfold buildTasks
  exact foldlM_listing_ok listing days [] h

theorem getDataCollector_open_error (listing : Date → Except PyErr (List Nat))
    (openF : Nat → Except PyErr Nat) (openLocal : Date → Except PyErr Nat)
    (day : Date) (files : List Nat)
    (hls : listing day = .ok files)
    (hfail : ∃ p ∈ files, ∃ e, openF p = .error e) :
    ∃ e2, (∃ p ∈ files, openF p = .error e2) ∧
      getDataCollector .httpfs listing openF openLocal day = .error e2 := by
  obtain ⟨e2, hm, hres⟩ := foldlM_open_error openF files none hfail
  refine ⟨e2, hm, ?_⟩
  unfold getDataCollector
  rw [hls]
  show ((List.foldlM (fun _last p => do
      let f ← openF p
      pure (some f)) (none : Option Nat) files) >>= fun c =>
        match c with
        | some collector => pure collector
        | none => .error .nameError) = Except.error e2
  rw [hres]
  rfl

theorem extractMulti_listing_error (numProc : Nat)
    (listing : Date → Except PyErr (List Nat))
    (openF : Nat → Except PyErr Unit) (y m d : Nat) (ws : Int)
    (wdays ndays : List Date)
    (hgw : genInterval y m d ws 1 false = some (wdays, false))
    (hgn : genInterval y m d ws 1 true = some (ndays, false))
    (hfail : ∃ d0 ∈ wdays ++ ndays, ∃ e, listing d0 = .error e) :
    ∃ e2, (∃ d0 ∈ wdays ++ ndays, listing d0 = .error e2) ∧
      extractMulti numProc listing openF y m d ws = .error e2 := by
  unfold extractMulti
  rw [hgw, hgn]
  dsimp only
  by_cases hw : ∃ d0 ∈ wdays, ∃ e, listing d0 = .error e
  · obtain ⟨e2, ⟨d1, hd1, hl1⟩, hres⟩ := buildTasks_error listing wdays hw
    refine ⟨e2, ⟨d1, List.mem_append_left _ hd1, hl1⟩, ?_⟩
    rw [hres]
    rfl
  · have hwok : ∀ d0 ∈ wdays, ∃ fs, listing d0 = .ok fs := by
      intro d0 hd0
      cases hls : listing d0 with
      | error e1 => exact absurd ⟨d0, hd0, e1, hls⟩ hw
      | ok fs => exact ⟨fs, rfl⟩
    obtain ⟨ts, hts⟩ := buildTasks_ok listing wdays hwok
    have hn : ∃ d0 ∈ ndays, ∃ e, listing d0 = .error e := by
      obtain ⟨d0, hd0, e, he⟩ := hfail
      rcases List.mem_append.mp hd0 with h | h
      · exact absurd ⟨d0, h, e, he⟩ hw
      · exact ⟨d0, h, e, he⟩
    obtain ⟨e2, ⟨d1, hd1, hl1⟩, hres⟩ := buildTasks_error listing ndays hn
    refine ⟨e2, ⟨d1, List.mem_append_right _ hd1, hl1⟩, ?_⟩
    rw [hts]
    show ((buildTasks listing ndays) >>= fun ntasks =>
      match multiLoop numProc openF (ts ++ ntasks) 0 with
      | .error e => .error e
      | .ok _ => .error .blocked) = Except.error e2
    rw [hres]
    rfl

theorem extractMulti_open_error (numProc : Nat)
    (listing : Date → Except PyErr (List Nat))
    (openF : Nat → Except PyErr Unit) (y m d : Nat) (ws : Int)
    (wdays ndays : List Date) (t0 : Nat) (ts ns : List Nat) (e : PyErr)
    (hnp : 0 < numProc)
    (hgw : genInterval y m d ws 1 false = some (wdays, false))
    (hgn : genInterval y m d ws 1 true = some (ndays, false))
    (hbw : buildTasks listing wdays = .ok (t0 :: ts))
    (hbn : buildTasks listing ndays = .ok ns)
    (hop : openF t0 = .error e) :
    extractMulti numProc listing openF y m d ws = .error e := by
  unfold extractMulti
  rw [hgw, hgn]
  dsimp only
  rw [hbw]
  show ((buildTasks listing ndays) >>= fun ntasks =>
    match multiLoop numProc openF ((t0 :: ts) ++ ntasks) 0 with
    | .error e => .error e
    | .ok _ => .error .blocked) = Except.error e
  rw [hbn]
  show (match multiLoop numProc openF ((t0 :: ts) ++ ns) 0 with
    | .error e => .error e
    | .ok _ => .error .blocked) = Except.error e
  rw [List.cons_append]
  unfold multiLoop
  rw [if_pos hnp, hop]

/-- C9: a day whose raw object cannot be listed or opened aborts the whole
window extraction with that exception, and no partial record mapping is
returned (the result is an error, never `.ok`): (1) `get_data_collector`
raises when no retrieval method is configured; (2) it propagates listing
failures unchanged and (3) surfaces a failing `open` of any listed object;
(4) the window-level multiprocess `extract` (which lists the days of both
windows itself) surfaces the listing error of any failing day of either
window as its own outcome; (5) it likewise surfaces a failing `open` of
the raw object handed to the first worker.  The sequential path also
aborts on any day failure, `extract` containing no exception handler (its
`get_raw_data` in fact always raises NameError first, see C5). -/
theorem c9_error_propagation :
    (∀ (listing : Date → Except PyErr (List Nat))
        (openF : Nat → Except PyErr Nat) (openLocal : Date → Except PyErr Nat)
        (day : Date),
        getDataCollector .noSource listing openF openLocal day =
          .error .noMethods) ∧
    (∀ (listing : Date → Except PyErr (List Nat))
        (openF : Nat → Except PyErr Nat) (openLocal : Date → Except PyErr Nat)
        (day : Date) (e : PyErr), listing day = .error e →
        getDataCollector .httpfs listing openF openLocal day = .error e) ∧
    (∀ (listing : Date → Except PyErr (List Nat))
        (openF : Nat → Except PyErr Nat) (openLocal : Date → Except PyErr Nat)
        (day : Date) (files : List Nat),
        listing day = .ok files →
        (∃ p ∈ files, ∃ e, openF p = .error e) →
        ∃ e2, (∃ p ∈ files, openF p = .error e2) ∧
          getDataCollector .httpfs listing openF openLocal day = .error e2) ∧
    (∀ (numProc : Nat) (listing : Date → Except PyErr (List Nat))
        (openF : Nat → Except PyErr Unit) (y m d : Nat) (ws : Int)
        (wdays ndays : List Date),
        genInterval y m d ws 1 false = some (wdays, false) →
        genInterval y m d ws 1 true = some (ndays, false) →
        (∃ d0 ∈ wdays ++ ndays, ∃ e, listing d0 = .error e) →
        ∃ e2, (∃ d0 ∈ wdays ++ ndays, listing d0 = .error e2) ∧
          extractMulti numProc listing openF y m d ws = .error e2) ∧
    (∀ (numProc : Nat) (listing : Date → Except PyErr (List Nat))
        (openF : Nat → Except PyErr Unit) (y m d : Nat) (ws : Int)
        (wdays ndays : List Date) (t0 : Nat) (ts ns : List Nat) (e : PyErr),
        0 < numProc →
        genInterval y m d ws 1 false = some (wdays, false) →
        genInterval y m d ws 1 true = some (ndays, false) →
        buildTasks listing wdays = .ok (t0 :: ts) →
        buildTasks listing ndays = .ok ns →
        openF t0 = .error e →
        extractMulti numProc listing openF y m d ws = .error e) := by
  refine ⟨fun _ _ _ _ => rfl, ?_, getDataCollector_open_error,
    extractMulti_listing_error, extractMulti_open_error⟩
  intro listing openF openLocal day e hl
  unfold getDataCollector
  rw [hl]
  rfl

/-- C9 (witness): concrete one-day windows exercising each conjunct: the
no-method raise, a listing failure and an open failure inside
`get_data_collector`, a listing failure on the next-window day surfacing
from `extract`, and an open failure of the first task surfacing from
`extract`. -/
theorem c9_error_propagation_witness :
    (getDataCollector .noSource (fun _ => .ok []) (fun p => .ok p)
        (fun _ => .ok 0) ⟨2018, 1, 1⟩ = .error .noMethods) ∧
    (getDataCollector .httpfs (fun _ => .error .httpError) (fun p => .ok p)
        (fun _ => .ok 0) ⟨2018, 1, 1⟩ = .error .httpError) ∧
    (∃ e2, (∃ p ∈ [3], (fun _ : Nat => (.error .httpError : Except PyErr Nat)) p =
          .error e2) ∧
      getDataCollector .httpfs (fun _ => .ok [3])
        (fun _ => .error .httpError) (fun _ => .ok 0) ⟨2018, 1, 1⟩ =
        .error e2) ∧
    (∃ e2, (∃ d0 ∈ [(⟨2018, 1, 1⟩ : Date)] ++ [(⟨2018, 1, 2⟩ : Date)],
        (fun day : Date => if day = ⟨2018, 1, 2⟩ then
            (.error .httpError : Except PyErr (List Nat)) else .ok [0]) d0 =
          .error e2) ∧
      extractMulti 1
        (fun day : Date => if day = ⟨2018, 1, 2⟩ then
          (.error .httpError : Except PyErr (List Nat)) else .ok [0])
        openNoFail 2018 1 1 1 = .error e2) ∧
    extractMulti 1 (fun _ => .ok [5]) (fun _ => .error .httpError)
      2018 1 1 1 = .error .httpError := by
  refine ⟨c9_error_propagation.1 _ _ _ _,
    c9_error_propagation.2.1 _ _ _ _ _ rfl,
    c9_error_propagation.2.2.1 _ _ _ _ [3] rfl ⟨3, by decide, .httpError, rfl⟩,
    c9_error_propagation.2.2.2.1 1 _ openNoFail 2018 1 1 1
      [⟨2018, 1, 1⟩] [⟨2018, 1, 2⟩] (by decide) (by decide)
      ⟨⟨2018, 1, 2⟩, by decide, .httpError, rfl⟩,
    c9_error_propagation.2.2.2.2 1 _ _ 2018 1 1 1
      [⟨2018, 1, 1⟩] [⟨2018, 1, 2⟩] 5 [] [5] .httpError (by decide)
      (by decide) (by decide) rfl rfl rfl⟩

end SmartCache
